import Mathlib

/-!
Verification development for the scratch-fuse/fuse command line tools.

The repository holds two pipelines:
* `src/bin/compiler.js` (legacy variant `src/unnamed/part_000`): compiles a
  YAML project description plus FUSE scripts into one `.sb3` zip archive;
* `src/bin/decompiler.js` (legacy variant `src/unnamed/part_001`): the inverse.

This file shallowly embeds the cross-target scope bookkeeping, the
content-addressed asset store, the manifest assembly and the decompiler's
per-unit loops.  External collaborators (the FUSE lexer/parser, the
block-graph compiler, node-forge MD5, the serializer's `uid()`, JSZip) are
modelled by explicit data or by function parameters; every definition that
corresponds to repository code is annotated with the file and lines it
embeds.
-/

namespace Fuse

/-- Scalar JSON/JS values occurring as variable default values. -/
inductive JsScalar where
  | num (n : Int)
  | str (s : String)
  | boolv (b : Bool)
  deriving DecidableEq

/-- JS values flowing through the variable tables: a scalar, an array of
scalars (a list default), or `null`/`undefined` (modelled as one value, as
both are handled identically by the `??` operators in the source). -/
inductive JsVal where
  | scalar (s : JsScalar)
  | arr (elems : List JsScalar)
  | nullv
  deriving DecidableEq

/-- JS `Array.isArray`. -/
def JsVal.isArray : JsVal → Bool
  | .arr _ => true
  | _ => false

/-- JS nullish coalescing `v ?? d`. -/
def JsVal.nullishOr (v d : JsVal) : JsVal :=
  match v with
  | .nullv => d
  | _ => v

/-- Shorthand for a numeric default. -/
def JsVal.num (n : Int) : JsVal := .scalar (.num n)

/-- A FUSE variable record as produced by the external compiler
(`result.variables`) and as rebuilt by the decompiler: name, kind tag
(`"scalar"`/`"list"`, the legacy decompiler uses `"variable"` for scalars),
global flag and optional export name. -/
structure Var where
  name : String
  type : String
  isGlobal : Bool
  exportName : Option String
  deriving DecidableEq

/-- A variable table value: the variable record plus its default value,
mirroring the `[variable, defaultValue]` pairs the source stores. -/
abbrev VarEntry := Var × JsVal

/-- A JS `Map<string, [Variable, default]>` modelled as an association list
in insertion order (`stageVariables`, `spriteVariables`, combined scopes). -/
abbrev VarMap := List (String × VarEntry)

/-- JS `Map.has`. -/
def mapHas (m : VarMap) (k : String) : Bool :=
  m.any (fun p => p.1 == k)

/-- Replace the value stored under an existing key, keeping its position
(the in-place update a JS `Map.set` performs on a present key). -/
def replaceKey : VarMap → String → VarEntry → VarMap
  | [], _, _ => []
  | p :: rest, k, v => (if p.1 == k then (k, v) else p) :: replaceKey rest k v

/-- JS `Map.set`: replace in place when the key exists, otherwise append. -/
def mapSet (m : VarMap) (k : String) (v : VarEntry) : VarMap :=
  if mapHas m k then replaceKey m k v else m ++ [(k, v)]

/-- JS `new Map(entries)`: later occurrences of a key overwrite earlier
ones. -/
def mapFromList (l : List (String × VarEntry)) : VarMap :=
  l.foldl (fun m p => mapSet m p.1 p.2) []

/-- A serialized block workspace; `{}` (the empty workspace) is `[]`.  The
block contents are irrelevant to the claims, only emptiness matters. -/
abbrev Workspace := List (String × String)

/-- Everything one call of `compileScript` consumes: the `entry` field of
the target's configuration block, and the outcome of the external
parse/compile of that entry file — the discovered variable declarations
(`result.variables` in iteration order) and the serialized workspace
(`mergeWorkspaces(...)`).  Modelling the external compiler's output as data
lets the scope bookkeeping be stated for every possible script. -/
structure ScriptInput where
  entry : Option String
  discovered : List VarEntry
  workspace : Workspace

/-- Result of one `compileScript` call: the returned workspace, the two
variable maps after the classification step (the source mutates its
`stageVariables` and `variables` arguments in place; here they are
returned, the second as `variablesMap` since Lean reserves the source's
name), the combined scope handed to the external compiler (`none` when the
early return fired), and the list of script files read (an effect trace;
empty on the early return). -/
structure CompileOutcome where
  workspace : Workspace
  stageVariables : Option VarMap
  variablesMap : VarMap
  combined : Option VarMap
  filesRead : List String
  deriving DecidableEq

/-- Stage classification loop, `src/bin/compiler.js` lines 328-332: every
discovered variable is forced global and inserted under its name. -/
def classifyStage (m : VarMap) : List VarEntry → VarMap
  | [] => m
  | vd :: rest =>
      classifyStage (mapSet m vd.1.name ({ vd.1 with isGlobal := true }, vd.2)) rest

/-- Sprite classification loop, `src/bin/compiler.js` lines 333-341: a
discovered global goes into `stageVariables` (the first component), a local
into the sprite's own `variables` (the second component). -/
def classifySprite (acc : VarMap × VarMap) : List VarEntry → VarMap × VarMap
  | [] => acc
  | vd :: rest =>
      classifySprite
        (if vd.1.isGlobal then (mapSet acc.1 vd.1.name vd, acc.2)
         else (acc.1, mapSet acc.2 vd.1.name vd)) rest

/-- `compileScript(entry, baseModuleDefinition, stageVariables, variables)`
from `src/bin/compiler.js` lines 279-352.  `baseModuleDefinition` only
feeds namespace resolution inside the external compiler and is omitted.
With no `entry` the function returns `{}` at once (lines 285-288).
Otherwise it reads the entry file, builds the combined scope from the
incoming `stageVariables` and `variables` maps (lines 298-306, each entry
copied as a fresh `[name, [variable, default]]` pair), hands it to the
external compiler, and classifies the discovered variables
(lines 327-341). -/
def compileScript (s : ScriptInput) (stageVariables : Option VarMap)
    (variablesMap : VarMap) : CompileOutcome :=
  match s.entry with
  | none =>
      { workspace := [], stageVariables := stageVariables,
        variablesMap := variablesMap, combined := none, filesRead := [] }
  | some entry =>
      let combined := mapFromList
        ((match stageVariables with
          | some sv => sv.map (fun p => (p.1, (p.2.1, p.2.2)))
          | none => []) ++ variablesMap.map (fun p => (p.1, (p.2.1, p.2.2))))
      match stageVariables with
      | none =>
          { workspace := s.workspace, stageVariables := none,
            variablesMap := classifyStage variablesMap s.discovered,
            combined := some combined, filesRead := [entry] }
      | some sv =>
          let res := classifySprite (sv, variablesMap) s.discovered
          { workspace := s.workspace, stageVariables := some res.1,
            variablesMap := res.2, combined := some combined,
            filesRead := [entry] }

/-- The main loop, `src/bin/compiler.js` lines 375-401: the stage is
compiled first with `null` as third argument and the (initially empty)
`stageVariables` map as fourth, so the stage's discovered variables land in
the global map. -/
def stageGlobals (stageInp : ScriptInput) : VarMap :=
  (compileScript stageInp none []).variablesMap

/-- One sprite iteration of the main loop (lines 387-401): each sprite is
compiled with the current global map and a fresh empty local map, and the
global map is replaced by the updated one the call returns. -/
def stepGlobals (g : VarMap) (s : ScriptInput) : VarMap :=
  ((compileScript s (some g) []).stageVariables).getD g

/-- The global map in force just before sprite `k` is compiled (`k = 0` is
right after the stage). -/
def globalsBefore (stageInp : ScriptInput) (sprites : List ScriptInput)
    (k : Nat) : VarMap :=
  (sprites.take k).foldl stepGlobals (stageGlobals stageInp)

/-- The combined scope handed to the external compiler for sprite `j`
(`none` when there is no such sprite or it has no entry script). -/
def combinedAt (stageInp : ScriptInput) (sprites : List ScriptInput)
    (j : Nat) : Option VarMap :=
  match sprites[j]? with
  | some s => (compileScript s (some (globalsBefore stageInp sprites j)) []).combined
  | none => none

theorem mapHas_replaceKey_ne (m : VarMap) (k : String) (v : VarEntry)
    (n : String) (hne : k ≠ n) :
    mapHas (replaceKey m k v) n = mapHas m n := by
  induction m with
  | nil => rfl
  | cons p rest ih =>
    simp only [replaceKey, mapHas, List.any_cons] at *
    by_cases hp : (p.1 == k) = true
    · have hpk : p.1 = k := by simpa using hp
      have h1 : (k == n) = false := by simpa using hne
      have h2 : (p.1 == n) = false := by
        rw [hpk]; simpa using hne
      rw [if_pos hp, ih, h1, h2]
    · rw [if_neg hp, ih]

theorem mapHas_replaceKey_self (m : VarMap) (k : String) (v : VarEntry)
    (h : mapHas m k = true) : mapHas (replaceKey m k v) k = true := by
  induction m with
  | nil => simp [mapHas] at h
  | cons p rest ih =>
    simp only [mapHas, List.any_cons] at h ⊢
    simp only [replaceKey]
    by_cases hp : (p.1 == k) = true
    · rw [if_pos hp]
      simp [List.any_cons]
    · rw [if_neg hp]
      rcases Bool.or_eq_true_iff.mp h with h1 | h2
      · exact absurd h1 hp
      · simp only [List.any_cons]
        have := ih h2
        simp only [mapHas] at this
        simp [this]

theorem mapHas_mapSet_self (m : VarMap) (k : String) (v : VarEntry) :
    mapHas (mapSet m k v) k = true := by
  unfold mapSet
  by_cases h : mapHas m k = true
  · rw [if_pos h]
    exact mapHas_replaceKey_self m k v h
  · rw [if_neg h]
    simp [mapHas, List.any_append]

theorem mapHas_mapSet_ne (m : VarMap) (k : String) (v : VarEntry)
    (n : String) (hne : k ≠ n) :
    mapHas (mapSet m k v) n = mapHas m n := by
  unfold mapSet
  by_cases h : mapHas m k = true
  · rw [if_pos h, mapHas_replaceKey_ne m k v n hne]
  · rw [if_neg h]
    have hkn : (k == n) = false := by simpa using hne
    simp [mapHas, List.any_append, hkn]

theorem mapHas_mapSet (m : VarMap) (k : String) (v : VarEntry) (n : String) :
    mapHas (mapSet m k v) n = (mapHas m n || (k == n)) := by
  by_cases hkn : k = n
  · subst hkn
    simp [mapHas_mapSet_self]
  · have : (k == n) = false := by simpa using hkn
    rw [mapHas_mapSet_ne m k v n hkn, this, Bool.or_false]

theorem mapHas_mono_mapSet (m : VarMap) (k : String) (v : VarEntry)
    (n : String) (h : mapHas m n = true) :
    mapHas (mapSet m k v) n = true := by
  rw [mapHas_mapSet, h, Bool.true_or]

theorem mapHas_mapSet_of_ne (m : VarMap) (k : String) (v : VarEntry)
    (n : String) (hne : k ≠ n) (h : mapHas m n = false) :
    mapHas (mapSet m k v) n = false := by
  rw [mapHas_mapSet_ne m k v n hne, h]

theorem mem_replaceKey_self (m : VarMap) (k : String) (v : VarEntry)
    (h : mapHas m k = true) : (k, v) ∈ replaceKey m k v := by
  induction m with
  | nil => simp [mapHas] at h
  | cons p rest ih =>
    simp only [mapHas, List.any_cons] at h
    simp only [replaceKey]
    by_cases hp : (p.1 == k) = true
    · rw [if_pos hp]
      exact List.mem_cons_self _ _
    · rcases Bool.or_eq_true_iff.mp h with h1 | h2
      · exact absurd h1 hp
      · rw [if_neg hp]
        exact List.mem_cons_of_mem _ (ih h2)

theorem mem_replaceKey_of_ne (m : VarMap) (k : String) (v : VarEntry)
    (q : String × VarEntry) (hq : q ∈ m) (hne : q.1 ≠ k) :
    q ∈ replaceKey m k v := by
  induction m with
  | nil => simp at hq
  | cons p rest ih =>
    simp only [replaceKey]
    rcases List.mem_cons.mp hq with h1 | h2
    · have hqk : ¬((p.1 == k) = true) := by rw [← h1]; simpa using hne
      rw [if_neg hqk, h1]
      exact List.mem_cons_self _ _
    · exact List.mem_cons_of_mem _ (ih h2)

theorem mem_replaceKey_cases (m : VarMap) (k : String) (v : VarEntry)
    (q : String × VarEntry) (hq : q ∈ replaceKey m k v) :
    q ∈ m ∨ q = (k, v) := by
  induction m with
  | nil => simp [replaceKey] at hq
  | cons p rest ih =>
    simp only [replaceKey] at hq
    rcases List.mem_cons.mp hq with h1 | h2
    · by_cases hp : (p.1 == k) = true
      · rw [if_pos hp] at h1
        exact Or.inr h1
      · rw [if_neg hp] at h1
        exact Or.inl (List.mem_cons.mpr (Or.inl h1))
    · rcases ih h2 with h3 | h3
      · exact Or.inl (List.mem_cons_of_mem _ h3)
      · exact Or.inr h3

theorem mem_mapSet_self (m : VarMap) (k : String) (v : VarEntry) :
    (k, v) ∈ mapSet m k v := by
  unfold mapSet
  by_cases h : mapHas m k = true
  · rw [if_pos h]
    exact mem_replaceKey_self m k v h
  · rw [if_neg h]
    exact List.mem_append_right _ (List.mem_singleton.mpr rfl)

theorem mem_mapSet_of_ne (m : VarMap) (k : String) (v : VarEntry)
    (q : String × VarEntry) (hq : q ∈ m) (hne : q.1 ≠ k) :
    q ∈ mapSet m k v := by
  unfold mapSet
  by_cases h : mapHas m k = true
  · rw [if_pos h]
    exact mem_replaceKey_of_ne m k v q hq hne
  · rw [if_neg h]
    exact List.mem_append_left _ hq

theorem mem_mapSet_cases (m : VarMap) (k : String) (v : VarEntry)
    (q : String × VarEntry) (hq : q ∈ mapSet m k v) :
    q ∈ m ∨ q = (k, v) := by
  unfold mapSet at hq
  by_cases h : mapHas m k = true
  · rw [if_pos h] at hq
    exact mem_replaceKey_cases m k v q hq
  · rw [if_neg h] at hq
    simpa using List.mem_append.mp hq

theorem mapHas_mapFromList_aux (l : List (String × VarEntry)) (m : VarMap)
    (n : String) :
    mapHas (l.foldl (fun m p => mapSet m p.1 p.2) m) n
      = (mapHas m n || l.any (fun p => p.1 == n)) := by
  induction l generalizing m with
  | nil => simp
  | cons p rest ih =>
    simp only [List.foldl_cons, List.any_cons]
    rw [ih, mapHas_mapSet, Bool.or_assoc]

theorem mapHas_mapFromList (l : List (String × VarEntry)) (n : String) :
    mapHas (mapFromList l) n = l.any (fun p => p.1 == n) := by
  unfold mapFromList
  rw [mapHas_mapFromList_aux]
  simp [mapHas]

/-! ### Classification lemmas -/

theorem classifyStage_preserve (ds : List VarEntry) (m : VarMap) (nm : String)
    (h : ∃ q ∈ m, q.1 = nm ∧ q.2.1.isGlobal = true) :
    ∃ q ∈ classifyStage m ds, q.1 = nm ∧ q.2.1.isGlobal = true := by
  induction ds generalizing m with
  | nil => exact h
  | cons vd rest ih =>
    simp only [classifyStage]
    refine ih _ ?_
    rcases h with ⟨q, hqm, hq1, hq2⟩
    by_cases hk : q.1 = vd.1.name
    · exact ⟨(vd.1.name, ({ vd.1 with isGlobal := true }, vd.2)),
        mem_mapSet_self _ _ _, by rw [← hk, hq1], rfl⟩
    · exact ⟨q, mem_mapSet_of_ne _ _ _ q hqm hk, hq1, hq2⟩

theorem classifyStage_mem (ds : List VarEntry) (m : VarMap) (vd : VarEntry)
    (hvd : vd ∈ ds) :
    ∃ q ∈ classifyStage m ds, q.1 = vd.1.name ∧ q.2.1.isGlobal = true := by
  induction ds generalizing m with
  | nil => simp at hvd
  | cons hd rest ih =>
    simp only [classifyStage]
    rcases List.mem_cons.mp hvd with h1 | h2
    · subst h1
      refine classifyStage_preserve _ _ _ ?_
      exact ⟨(vd.1.name, ({ vd.1 with isGlobal := true }, vd.2)),
        mem_mapSet_self _ _ _, rfl, rfl⟩
    · exact ih _ h2

theorem classifyStage_subset (ds : List VarEntry) (m : VarMap)
    (q : String × VarEntry) (hq : q ∈ classifyStage m ds) :
    q ∈ m ∨ q.2.1.isGlobal = true := by
  induction ds generalizing m with
  | nil => exact Or.inl hq
  | cons vd rest ih =>
    simp only [classifyStage] at hq
    rcases ih _ hq with h1 | h2
    · rcases mem_mapSet_cases _ _ _ _ h1 with h3 | h3
      · exact Or.inl h3
      · refine Or.inr ?_
        rw [h3]
    · exact Or.inr h2

theorem classifySprite_fst_mono (ds : List VarEntry) (acc : VarMap × VarMap)
    (n : String) (h : mapHas acc.1 n = true) :
    mapHas (classifySprite acc ds).1 n = true := by
  induction ds generalizing acc with
  | nil => exact h
  | cons vd rest ih =>
    simp only [classifySprite]
    by_cases hg : vd.1.isGlobal = true
    · rw [if_pos hg]
      exact ih _ (mapHas_mono_mapSet _ _ _ _ h)
    · rw [if_neg hg]
      exact ih _ h

theorem classifySprite_snd_mono (ds : List VarEntry) (acc : VarMap × VarMap)
    (n : String) (h : mapHas acc.2 n = true) :
    mapHas (classifySprite acc ds).2 n = true := by
  induction ds generalizing acc with
  | nil => exact h
  | cons vd rest ih =>
    simp only [classifySprite]
    by_cases hg : vd.1.isGlobal = true
    · rw [if_pos hg]
      exact ih _ h
    · rw [if_neg hg]
      exact ih _ (mapHas_mono_mapSet _ _ _ _ h)

theorem classifySprite_global_mem (ds : List VarEntry) (acc : VarMap × VarMap)
    (vd : VarEntry) (hvd : vd ∈ ds) (hg : vd.1.isGlobal = true) :
    mapHas (classifySprite acc ds).1 vd.1.name = true := by
  induction ds generalizing acc with
  | nil => simp at hvd
  | cons hd rest ih =>
    simp only [classifySprite]
    rcases List.mem_cons.mp hvd with h1 | h2
    · subst h1
      rw [if_pos hg]
      exact classifySprite_fst_mono _ _ _ (mapHas_mapSet_self _ _ _)
    · exact ih _ h2

theorem classifySprite_local_mem (ds : List VarEntry) (acc : VarMap × VarMap)
    (vd : VarEntry) (hvd : vd ∈ ds) (hg : vd.1.isGlobal = false) :
    mapHas (classifySprite acc ds).2 vd.1.name = true := by
  induction ds generalizing acc with
  | nil => simp at hvd
  | cons hd rest ih =>
    simp only [classifySprite]
    rcases List.mem_cons.mp hvd with h1 | h2
    · subst h1
      rw [if_neg (by simp [hg])]
      exact classifySprite_snd_mono _ _ _ (mapHas_mapSet_self _ _ _)
    · exact ih _ h2

theorem classifySprite_fst_not (ds : List VarEntry) (acc : VarMap × VarMap)
    (n : String) (h : mapHas acc.1 n = false)
    (hds : ∀ vd ∈ ds, vd.1.name = n → vd.1.isGlobal = false) :
    mapHas (classifySprite acc ds).1 n = false := by
  induction ds generalizing acc with
  | nil => exact h
  | cons vd rest ih =>
    simp only [classifySprite]
    by_cases hg : vd.1.isGlobal = true
    · rw [if_pos hg]
      have hne : vd.1.name ≠ n := by
        intro heq
        have := hds vd (List.mem_cons_self _ _) heq
        rw [this] at hg
        cases hg
      exact ih _ (mapHas_mapSet_of_ne _ _ _ _ hne h)
        (fun v hv hn => hds v (List.mem_cons_of_mem _ hv) hn)
    · rw [if_neg hg]
      exact ih _ h (fun v hv hn => hds v (List.mem_cons_of_mem _ hv) hn)

/-! ### compileScript equations -/

theorem compileScript_none (ds : List VarEntry) (ws : Workspace)
    (sv : Option VarMap) (lv : VarMap) :
    compileScript ⟨none, ds, ws⟩ sv lv =
      { workspace := [], stageVariables := sv, variablesMap := lv,
        combined := none, filesRead := [] } := rfl

theorem compileScript_stage (e : String) (ds : List VarEntry)
    (ws : Workspace) (lv : VarMap) :
    compileScript ⟨some e, ds, ws⟩ none lv =
      { workspace := ws, stageVariables := none,
        variablesMap := classifyStage lv ds,
        combined := some (mapFromList (lv.map (fun p => (p.1, (p.2.1, p.2.2))))),
        filesRead := [e] } := rfl

theorem compileScript_sprite (e : String) (ds : List VarEntry)
    (ws : Workspace) (g lv : VarMap) :
    compileScript ⟨some e, ds, ws⟩ (some g) lv =
      { workspace := ws,
        stageVariables := some (classifySprite (g, lv) ds).1,
        variablesMap := (classifySprite (g, lv) ds).2,
        combined := some (mapFromList
          (g.map (fun p => (p.1, (p.2.1, p.2.2)))
            ++ lv.map (fun p => (p.1, (p.2.1, p.2.2))))),
        filesRead := [e] } := rfl

/-! ### Pipeline lemmas -/

theorem stepGlobals_mono (g : VarMap) (s : ScriptInput) (n : String)
    (h : mapHas g n = true) : mapHas (stepGlobals g s) n = true := by
  unfold stepGlobals
  cases s with
  | mk entry ds ws =>
    cases entry with
    | none => simpa [compileScript_none] using h
    | some e =>
      rw [compileScript_sprite]
      simp only [Option.getD_some]
      exact classifySprite_fst_mono ds (g, []) n h

theorem globalsBefore_succ (si : ScriptInput) (sprites : List ScriptInput)
    (k : Nat) :
    globalsBefore si sprites (k + 1) =
      (match sprites[k]? with
       | some s => stepGlobals (globalsBefore si sprites k) s
       | none => globalsBefore si sprites k) := by
  unfold globalsBefore
  rw [List.take_succ, List.foldl_append]
  cases sprites[k]? with
  | none => rfl
  | some s => rfl

theorem globalsBefore_mono (si : ScriptInput) (sprites : List ScriptInput)
    (n : String) (k k' : Nat) (hk : k ≤ k')
    (h : mapHas (globalsBefore si sprites k) n = true) :
    mapHas (globalsBefore si sprites k') n = true := by
  induction k', hk using Nat.le_induction with
  | base => exact h
  | succ m hm ih =>
    rw [globalsBefore_succ]
    cases hsm : sprites[m]? with
    | none => exact ih
    | some s => exact stepGlobals_mono _ s n ih

theorem combinedAt_has (si : ScriptInput) (sprites : List ScriptInput)
    (j : Nat) (n : String) (c : VarMap)
    (hc : combinedAt si sprites j = some c) :
    mapHas c n = mapHas (globalsBefore si sprites j) n := by
  cases hsj : sprites[j]? with
  | none =>
    have hc2 : (none : Option VarMap) = some c := by
      unfold combinedAt at hc
      rw [hsj] at hc
      exact hc
    cases hc2
  | some s =>
    have hc2 : (compileScript s (some (globalsBefore si sprites j)) []).combined
        = some c := by
      unfold combinedAt at hc
      rw [hsj] at hc
      exact hc
    cases s with
    | mk entry ds ws =>
      cases entry with
      | none => rw [compileScript_none] at hc2; cases hc2
      | some e =>
        rw [compileScript_sprite] at hc2
        have hc3 := Option.some.inj hc2
        rw [← hc3, mapHas_mapFromList]
        simp [mapHas, List.any_map, Function.comp]

theorem stage_combined_empty (si : ScriptInput) (c : VarMap)
    (hc : (compileScript si none []).combined = some c) : c = [] := by
  cases si with
  | mk entry ds ws =>
    cases entry with
    | none => rw [compileScript_none] at hc; cases hc
    | some e =>
      rw [compileScript_stage] at hc
      exact (Option.some.inj hc).symm

/-! ### Claims about the scope pipeline -/

/-- C10: when a target's configuration block declares no entry script,
`compileScript` returns the empty workspace `{}` immediately, leaves the
`stageVariables` (GlobalScope) argument and the target's own variable map
unchanged, hands no combined scope to the external compiler, and reads no
file (`src/bin/compiler.js` lines 284-288, likewise the legacy
`src/unnamed/part_000` lines 211-216). -/
theorem compileScript_no_entry_frame (ds : List VarEntry) (ws : Workspace)
    (sv : Option VarMap) (lv : VarMap) :
    compileScript ⟨none, ds, ws⟩ sv lv =
      { workspace := [], stageVariables := sv, variablesMap := lv,
        combined := none, filesRead := [] } := rfl

/-- C2: the classification rule of `compileScript`
(`src/bin/compiler.js` lines 327-341).  Stage mode (third argument
`null`): every discovered variable is stored into the map passed as
`variables` — the pipeline passes the GlobalScope there for the stage —
under its name with `isGlobal` forced `true`, regardless of how it was
declared, and every entry of the resulting map is either an original entry
or global-marked.  Sprite mode: a discovered variable declared global is
inserted into `stageVariables` (GlobalScope), a variable declared local is
inserted into the sprite's own map only — it never enters GlobalScope
unless the name was already there or some same-named discovered variable
was declared global. -/
theorem compileScript_classification (e : String) (ds : List VarEntry)
    (ws : Workspace) (g lv : VarMap) :
    (∀ vd ∈ ds, ∃ q ∈ (compileScript ⟨some e, ds, ws⟩ none lv).variablesMap,
        q.1 = vd.1.name ∧ q.2.1.isGlobal = true)
    ∧ (∀ q ∈ (compileScript ⟨some e, ds, ws⟩ none lv).variablesMap,
        q ∈ lv ∨ q.2.1.isGlobal = true)
    ∧ (∀ vd ∈ ds, vd.1.isGlobal = true →
        ∃ sv, (compileScript ⟨some e, ds, ws⟩ (some g) lv).stageVariables = some sv
          ∧ mapHas sv vd.1.name = true)
    ∧ (∀ vd ∈ ds, vd.1.isGlobal = false →
        mapHas (compileScript ⟨some e, ds, ws⟩ (some g) lv).variablesMap
          vd.1.name = true)
    ∧ (∀ n, mapHas g n = false →
        (∀ vd ∈ ds, vd.1.name = n → vd.1.isGlobal = false) →
        ∃ sv, (compileScript ⟨some e, ds, ws⟩ (some g) lv).stageVariables = some sv
          ∧ mapHas sv n = false) := by
  refine ⟨?_, ?_, ?_, ?_, ?_⟩
  · intro vd hvd
    rw [compileScript_stage]
    exact classifyStage_mem ds lv vd hvd
  · intro q hq
    rw [compileScript_stage] at hq
    exact classifyStage_subset ds lv q hq
  · intro vd hvd hg
    rw [compileScript_sprite]
    exact ⟨(classifySprite (g, lv) ds).1, rfl,
      classifySprite_global_mem ds (g, lv) vd hvd hg⟩
  · intro vd hvd hg
    rw [compileScript_sprite]
    exact classifySprite_local_mem ds (g, lv) vd hvd hg
  · intro n hn hds
    rw [compileScript_sprite]
    exact ⟨(classifySprite (g, lv) ds).1, rfl,
      classifySprite_fst_not ds (g, lv) n hn hds⟩

/-- C4: scope monotonicity over a full run.  If a name is present in
GlobalScope at some point of the ordered sprite loop, it is present at
every later point (no step of the pipeline removes entries from the global
map) and in the combined scope handed to the external compiler for every
sprite compiled from that point on (`src/bin/compiler.js` lines 327-341,
375-401). -/
theorem globalScope_monotone (stageInp : ScriptInput)
    (sprites : List ScriptInput) (t : Nat) (name : String)
    (h : mapHas (globalsBefore stageInp sprites t) name = true) :
    (∀ u, t ≤ u → mapHas (globalsBefore stageInp sprites u) name = true)
    ∧ (∀ j, t ≤ j → ∀ c, combinedAt stageInp sprites j = some c →
        mapHas c name = true) := by
  constructor
  · intro u hu
    exact globalsBefore_mono stageInp sprites name t u hu h
  · intro j hj c hc
    rw [combinedAt_has stageInp sprites j name c hc]
    exact globalsBefore_mono stageInp sprites name t j hj h

/-- C3: directional visibility.  If a global named `name` is first
inserted into GlobalScope while sprite `k` is compiled (absent from the
global map before sprite `k`, present after), then `name` is in the
combined scope handed to the external compiler for every sprite `j > k`,
but not in the combined scope handed for the stage (always empty at that
point) nor for any sprite `j < k` (`src/bin/compiler.js` lines 296-306,
386-401). -/
theorem globalScope_directional (stageInp : ScriptInput)
    (sprites : List ScriptInput) (k : Nat) (name : String)
    (hnew : mapHas (globalsBefore stageInp sprites k) name = false)
    (hins : mapHas (globalsBefore stageInp sprites (k + 1)) name = true) :
    (∀ j, k < j → ∀ c, combinedAt stageInp sprites j = some c →
        mapHas c name = true)
    ∧ (∀ c, (compileScript stageInp none []).combined = some c →
        mapHas c name = false)
    ∧ (∀ j, j < k → ∀ c, combinedAt stageInp sprites j = some c →
        mapHas c name = false) := by
  refine ⟨?_, ?_, ?_⟩
  · intro j hj c hc
    rw [combinedAt_has stageInp sprites j name c hc]
    exact globalsBefore_mono stageInp sprites name (k + 1) j hj hins
  · intro c hc
    rw [stage_combined_empty stageInp c hc]
    rfl
  · intro j hj c hc
    rw [combinedAt_has stageInp sprites j name c hc]
    cases hcase : mapHas (globalsBefore stageInp sprites j) name with
    | false => rfl
    | true =>
      have := globalsBefore_mono stageInp sprites name j k (Nat.le_of_lt hj) hcase
      rw [this] at hnew
      cases hnew

/-- A sample run used by the witnesses: a stage with no entry script, a
first sprite whose script declares one global scalar `g1`, and a second
sprite with an empty script. -/
def sampleStage : ScriptInput := ⟨none, [], []⟩

/-- First sprite of the sample run: declares global scalar `g1`. -/
def sampleSprite1 : ScriptInput :=
  ⟨some "a.fuse", [((⟨"g1", "scalar", true, none⟩ : Var), JsVal.num 0)], []⟩

/-- Second sprite of the sample run: empty script. -/
def sampleSprite2 : ScriptInput := ⟨some "b.fuse", [], []⟩

/-- The sample run's sprite list. -/
def sampleSprites : List ScriptInput := [sampleSprite1, sampleSprite2]

/-- Witness for C2: in the sample sprite, the discovered global `g1` ends
up in GlobalScope. -/
theorem compileScript_classification_witness :
    ∃ sv, (compileScript ⟨some "a.fuse",
        [((⟨"g1", "scalar", true, none⟩ : Var), JsVal.num 0)], []⟩
        (some []) []).stageVariables = some sv ∧ mapHas sv "g1" = true :=
  (compileScript_classification "a.fuse"
      [((⟨"g1", "scalar", true, none⟩ : Var), JsVal.num 0)] [] [] []).2.2.1
    ((⟨"g1", "scalar", true, none⟩ : Var), JsVal.num 0) (by decide) rfl

/-- Witness for C4: `g1`, inserted while sprite 1 was compiled, is still
in the global map after sprite 2. -/
theorem globalScope_monotone_witness :
    mapHas (globalsBefore sampleStage sampleSprites 2) "g1" = true :=
  (globalScope_monotone sampleStage sampleSprites 1 "g1" (by decide)).1 2
    (by decide)

/-- Witness for C3: `g1` first inserted by sprite 0 is visible in the
combined scope handed to sprite 1. -/
theorem globalScope_directional_witness :
    mapHas [("g1", ((⟨"g1", "scalar", true, none⟩ : Var), JsVal.num 0))]
      "g1" = true :=
  (globalScope_directional sampleStage sampleSprites 0 "g1" (by decide)
      (by decide)).1 1 (by decide)
    [("g1", ((⟨"g1", "scalar", true, none⟩ : Var), JsVal.num 0))] (by decide)

/-! ### Content-addressed asset store -/

/-- The zip archive under construction.  JSZip's `zip.file(name, data)`
replaces the entry when the name already exists, otherwise appends. -/
abbrev Zip := List (String × String)

/-- Whether the archive already holds an entry under this name. -/
def zipHas (z : Zip) (k : String) : Bool :=
  z.any (fun p => p.1 == k)

/-- Replace the data stored under an existing entry name. -/
def zipReplace : Zip → String → String → Zip
  | [], _, _ => []
  | p :: rest, k, d => (if p.1 == k then (k, d) else p) :: zipReplace rest k d

/-- JSZip `zip.file(name, data)`. -/
def zipFile (z : Zip) (k : String) (d : String) : Zip :=
  if zipHas z k then zipReplace z k d else z ++ [(k, d)]

/-- Number of archive entries stored under a name. -/
def zipCount (z : Zip) (k : String) : Nat :=
  (z.filter (fun p => p.1 == k)).length

/-- Character-level splitting, used to model Node's path functions with
kernel-computable operations. -/
def splitOnChar (c : Char) (cs : List Char) : List (List Char) :=
  cs.foldr
    (fun ch acc =>
      match acc with
      | [] => [[ch]]
      | g :: gs => if ch = c then [] :: g :: gs else (ch :: g) :: gs)
    [[]]

/-- Node's `path.extname` as used by `processAsset`: the dot-suffix of the
path's basename (empty when the basename has no dot or only a leading
dot). -/
def extname (p : String) : String :=
  let base := (splitOnChar '/' p.data).getLastD []
  match splitOnChar '.' base with
  | [] => ""
  | [_] => ""
  | first :: rest =>
      if first.isEmpty ∧ rest.length = 1 then ""
      else String.mk ('.' :: rest.getLastD [])

/-- JS `String.prototype.slice(1)`: drop the first character. -/
def slice1 (s : String) : String := String.mk (s.data.drop 1)

/-- The record `processAsset`/`createEmptyAsset` return. -/
structure AssetInfo where
  assetId : String
  md5ext : String
  dataFormat : String
  deriving DecidableEq

/-- `processAsset(assetPath, type)` from `src/bin/compiler.js` lines
416-434 (identical in `src/unnamed/part_000` lines 313-331).
`fs.readFileSync` is modelled by a lookup in `fileSys` (`none` means the
read throws and the run aborts); the node-forge MD5 over the bytes read as
a binary string is the hash parameter `h`; path resolution against the
input directory is folded into `fileSys`'s keying.  The `type` argument is
unused by the source.  The storage key is the hash of the bytes plus the
declared path's extension, and the blob is stored into the zip under that
key. -/
def processAsset (h : String → String) (fileSys : String → Option String)
    (z : Zip) (assetPath : String) : Option (AssetInfo × Zip) :=
  match fileSys assetPath with
  | none => none
  | some assetData =>
      let md5v := h assetData
      let ext := slice1 (extname assetPath)
      let md5ext := md5v ++ "." ++ ext
      some (⟨md5v, md5ext, ext⟩, zipFile z md5ext assetData)

/-- The fixed empty transparent 1x1 SVG, `src/bin/compiler.js` lines
138-139. -/
def EMPTY_SVG : String :=
  "<svg version=\"1.1\" xmlns=\"http://www.w3.org/2000/svg\" xmlns:xlink=\"http://www.w3.org/1999/xlink\" width=\"1\" height=\"1\"><rect width=\"1\" height=\"1\" fill=\"transparent\"/></svg>"

/-- `createEmptyAsset()` from `src/bin/compiler.js` lines 404-413: hash
the fixed SVG text, store it under `<hash>.svg`, and return its record. -/
def createEmptyAsset (h : String → String) (z : Zip) : AssetInfo × Zip :=
  let md5v := h EMPTY_SVG
  let md5ext := md5v ++ ".svg"
  (⟨md5v, md5ext, "svg"⟩, zipFile z md5ext EMPTY_SVG)

/-- A declared costume/backdrop in the project description. -/
structure CostumeDecl where
  path : String
  name : String
  x : Option Int
  y : Option Int
  deriving DecidableEq

/-- A costume entry of the manifest. -/
structure CostumeEntry where
  assetId : String
  name : String
  md5ext : String
  dataFormat : String
  rotationCenterX : Int
  rotationCenterY : Int
  deriving DecidableEq

/-- The declared-costumes loop of the costume branch
(`src/bin/compiler.js` lines 564-574 for sprites, 474-484 for stage
backdrops): process each asset in order, pushing a manifest entry with
rotation centers defaulted to 0; a failed read aborts. -/
def processCostumeList (h : String → String)
    (fileSys : String → Option String) :
    List CostumeDecl → Zip → Option (List CostumeEntry × Zip)
  | [], z => some ([], z)
  | d :: ds, z =>
      match processAsset h fileSys z d.path with
      | none => none
      | some (info, z1) =>
          match processCostumeList h fileSys ds z1 with
          | none => none
          | some (entries, z2) =>
              some (⟨info.assetId, d.name, info.md5ext, info.dataFormat,
                d.x.getD 0, d.y.getD 0⟩ :: entries, z2)

/-- The costume/backdrop branch of target assembly:
`if (costumes && costumes.length > 0)` process the declared list, `else`
push the single default entry named `"empty"` referencing
`createEmptyAsset` (`src/bin/compiler.js` lines 563-586 for sprites and
473-496 for stage backdrops; both default branches are identical). -/
def processCostumes (h : String → String)
    (fileSys : String → Option String)
    (decls : Option (List CostumeDecl)) (z : Zip) :
    Option (List CostumeEntry × Zip) :=
  match decls with
  | some (d :: ds) => processCostumeList h fileSys (d :: ds) z
  | _ =>
      let res := createEmptyAsset h z
      some ([⟨res.1.assetId, "empty", res.1.md5ext, res.1.dataFormat, 0, 0⟩],
        res.2)

/-- A concrete stand-in for the external MD5: a deterministic function of
the content.  The spec assumes a collision-resistant hash and none of the
theorems depend on the hash value beyond it being a function of the
bytes. -/
def mdlHash (s : String) : String := "h" ++ toString s.length

/-! ### Zip lemmas -/

theorem zipCount_eq_zero (z : Zip) (k : String) (h : zipHas z k = false) :
    zipCount z k = 0 := by
  induction z with
  | nil => rfl
  | cons p rest ih =>
    simp only [zipHas, List.any_cons, Bool.or_eq_false_iff] at h
    simp only [zipCount, List.filter_cons, h.1]
    exact ih h.2

theorem zipCount_pos (z : Zip) (k : String) (h : zipHas z k = true) :
    1 ≤ zipCount z k := by
  induction z with
  | nil => simp [zipHas] at h
  | cons p rest ih =>
    simp only [zipHas, List.any_cons] at h
    simp only [zipCount, List.filter_cons]
    by_cases hp : (p.1 == k) = true
    · simp only [hp, if_true, List.length_cons]
      exact Nat.succ_le_succ (Nat.zero_le _)
    · rcases Bool.or_eq_true_iff.mp h with h1 | h2
      · exact absurd h1 hp
      · simp only [hp, if_false]
        exact ih h2

theorem zipCount_zipReplace (z : Zip) (k : String) (d : String) :
    zipCount (zipReplace z k d) k = zipCount z k := by
  induction z with
  | nil => rfl
  | cons p rest ih =>
    simp only [zipReplace, zipCount, List.filter_cons]
    by_cases hp : (p.1 == k) = true
    · rw [if_pos hp]
      have : ((k, d).1 == k) = true := by simp
      simp only [this, if_true, List.length_cons, hp, if_true]
      simp only [zipCount] at ih
      rw [ih]
    · rw [if_neg hp]
      simp only [hp, if_false]
      exact ih

theorem length_zipReplace (z : Zip) (k : String) (d : String) :
    (zipReplace z k d).length = z.length := by
  induction z with
  | nil => rfl
  | cons p rest ih => simp only [zipReplace, List.length_cons, ih]

theorem zipHas_zipReplace (z : Zip) (k : String) (d : String)
    (h : zipHas z k = true) : zipHas (zipReplace z k d) k = true := by
  induction z with
  | nil => simp [zipHas] at h
  | cons p rest ih =>
    simp only [zipHas, List.any_cons] at h ⊢
    simp only [zipReplace]
    by_cases hp : (p.1 == k) = true
    · rw [if_pos hp]
      simp [List.any_cons]
    · rw [if_neg hp]
      rcases Bool.or_eq_true_iff.mp h with h1 | h2
      · exact absurd h1 hp
      · simp only [List.any_cons]
        have := ih h2
        simp only [zipHas] at this
        simp [this]

theorem zipHas_zipFile_self (z : Zip) (k : String) (d : String) :
    zipHas (zipFile z k d) k = true := by
  unfold zipFile
  by_cases h : zipHas z k = true
  · rw [if_pos h]
    exact zipHas_zipReplace z k d h
  · rw [if_neg h]
    simp [zipHas, List.any_append]

theorem zipCount_zipFile_self (z : Zip) (k : String) (d : String)
    (hk : zipCount z k ≤ 1) : zipCount (zipFile z k d) k = 1 := by
  unfold zipFile
  by_cases h : zipHas z k = true
  · rw [if_pos h, zipCount_zipReplace]
    exact Nat.le_antisymm hk (zipCount_pos z k h)
  · rw [if_neg h]
    simp only [zipCount, List.filter_append]
    rw [List.length_append]
    have h0 : zipCount z k = 0 := zipCount_eq_zero z k (by simpa using h)
    simp only [zipCount] at h0
    rw [h0]
    simp

theorem length_zipFile_le (z : Zip) (k : String) (d : String) :
    (zipFile z k d).length ≤ z.length + 1 := by
  unfold zipFile
  by_cases h : zipHas z k = true
  · rw [if_pos h, length_zipReplace]
    exact Nat.le_succ _
  · rw [if_neg h]
    simp

theorem length_zipFile_of_has (z : Zip) (k : String) (d : String)
    (h : zipHas z k = true) : (zipFile z k d).length = z.length := by
  unfold zipFile
  rw [if_pos h, length_zipReplace]

/-! ### Claims about the asset store -/

/-- C5 (amended): two declared assets with identical raw bytes AND the
same path extension resolve to the same storage key and the blob occupies
exactly one archive entry after both are processed — the second store is a
replacement, not a second copy (`src/bin/compiler.js` lines 416-434).
Identical bytes alone are not enough: the storage key is
`<hash>.<extension>`, so the extension participates (see the
counterexample). -/
theorem processAsset_dedup (h : String → String)
    (fileSys : String → Option String) (z : Zip) (p1 p2 b : String)
    (hp1 : fileSys p1 = some b) (hp2 : fileSys p2 = some b)
    (hext : extname p1 = extname p2)
    (hkey : zipCount z (h b ++ "." ++ slice1 (extname p1)) ≤ 1) :
    ∃ i1 z1 i2 z2,
      processAsset h fileSys z p1 = some (i1, z1)
      ∧ processAsset h fileSys z1 p2 = some (i2, z2)
      ∧ i1.md5ext = i2.md5ext
      ∧ zipCount z2 i1.md5ext = 1
      ∧ z2.length ≤ z.length + 1 := by
  have e1 : processAsset h fileSys z p1
      = some (⟨h b, h b ++ "." ++ slice1 (extname p1), slice1 (extname p1)⟩,
          zipFile z (h b ++ "." ++ slice1 (extname p1)) b) := by
    unfold processAsset
    rw [hp1]
  have e2 : processAsset h fileSys
        (zipFile z (h b ++ "." ++ slice1 (extname p1)) b) p2
      = some (⟨h b, h b ++ "." ++ slice1 (extname p1), slice1 (extname p1)⟩,
          zipFile (zipFile z (h b ++ "." ++ slice1 (extname p1)) b)
            (h b ++ "." ++ slice1 (extname p1)) b) := by
    unfold processAsset
    rw [hp2, ← hext]
  have hc1 : zipCount (zipFile z (h b ++ "." ++ slice1 (extname p1)) b)
      (h b ++ "." ++ slice1 (extname p1)) = 1 :=
    zipCount_zipFile_self z _ b hkey
  refine ⟨_, _, _, _, e1, e2, rfl, ?_, ?_⟩
  · exact zipCount_zipFile_self _ _ b (Nat.le_of_eq hc1)
  · calc (zipFile (zipFile z (h b ++ "." ++ slice1 (extname p1)) b)
        (h b ++ "." ++ slice1 (extname p1)) b).length
        = (zipFile z (h b ++ "." ++ slice1 (extname p1)) b).length :=
          length_zipFile_of_has _ _ b (zipHas_zipFile_self z _ b)
      _ ≤ z.length + 1 := length_zipFile_le z _ b

/-- A file system for the C5 counterexample: the same nine bytes are
declared under two different extensions. -/
def c5Fs : String → Option String :=
  fun p => if p == "a.svg" || p == "a.png" then some "SAMEBYTES" else none

/-- C5 counterexample: processing two declared assets with identical raw
bytes but different path extensions yields two DIFFERENT storage keys and
two archive entries, refuting the claim that identical bytes alone always
resolve to one storage key and at most one entry.  The storage key is
`hash-of-bytes ++ "." ++ extension`, so this holds for every hash
function; it is evaluated here at the concrete stand-in hash. -/
theorem processAsset_bytes_only_counterexample :
    processAsset mdlHash c5Fs [] "a.svg"
        = some (⟨"h9", "h9.svg", "svg"⟩, [("h9.svg", "SAMEBYTES")])
    ∧ processAsset mdlHash c5Fs [("h9.svg", "SAMEBYTES")] "a.png"
        = some (⟨"h9", "h9.png", "png"⟩,
            [("h9.svg", "SAMEBYTES"), ("h9.png", "SAMEBYTES")])
    ∧ ("h9.svg" : String) ≠ "h9.png" := by
  refine ⟨?_, ?_, ?_⟩ <;> decide

/-- A file system for the C5 witness: identical bytes under two paths with
the same extension. -/
def c5wFs : String → Option String :=
  fun p => if p == "a.svg" || p == "b.svg" then some "SAMEBYTES" else none

/-- Witness for C5: same bytes, same extension — one archive entry. -/
theorem processAsset_dedup_witness :
    ∃ i1 z1 i2 z2,
      processAsset mdlHash c5wFs [] "a.svg" = some (i1, z1)
      ∧ processAsset mdlHash c5wFs z1 "b.svg" = some (i2, z2)
      ∧ i1.md5ext = i2.md5ext
      ∧ zipCount z2 i1.md5ext = 1
      ∧ z2.length ≤ ([] : Zip).length + 1 :=
  processAsset_dedup mdlHash c5wFs [] "a.svg" "b.svg" "SAMEBYTES"
    (by decide) (by decide) (by decide) (by decide)

/-- C6: a target (stage or sprite) whose configuration declares no
costumes/backdrops (`undefined` or an empty list) ends up with exactly one
costume entry, named `"empty"`, referencing the fixed placeholder SVG
whose storage key is deterministically the hash of the fixed SVG text plus
the extension `svg`, and the placeholder blob is stored in the archive
under that key (`src/bin/compiler.js` lines 404-413, 473-496 and
563-586). -/
theorem defaultCostume (h : String → String)
    (fileSys : String → Option String) (decls : Option (List CostumeDecl))
    (z : Zip) (hd : decls = none ∨ decls = some []) :
    processCostumes h fileSys decls z =
      some ([⟨h EMPTY_SVG, "empty", h EMPTY_SVG ++ ".svg", "svg", 0, 0⟩],
        zipFile z (h EMPTY_SVG ++ ".svg") EMPTY_SVG) := by
  rcases hd with hd | hd <;> subst hd <;> rfl

/-- Witness for C6, at the concrete stand-in hash and an empty archive. -/
theorem defaultCostume_witness :
    processCostumes mdlHash (fun _ => none) none [] =
      some ([⟨mdlHash EMPTY_SVG, "empty", mdlHash EMPTY_SVG ++ ".svg",
          "svg", 0, 0⟩],
        zipFile [] (mdlHash EMPTY_SVG ++ ".svg") EMPTY_SVG) :=
  defaultCostume mdlHash (fun _ => none) none [] (Or.inl rfl)

/-! ### Manifest variable re-keying -/

/-- `uid()` from the external `@scratch-fuse/serializer`: returns a fresh
opaque identifier on every call; modelled as drawing successive values
from a counter (the only property the manifest relies on is freshness). -/
def uid (n : Nat) : Nat × Nat := (n, n + 1)

/-- A manifest variable or list table: opaque id → `[displayName, value]`
(JS object keyed by the generated ids). -/
abbrev ManifestTable := List (Nat × (String × JsVal))

/-- The variable re-keying loop of target assembly
(`src/bin/compiler.js` lines 547-560 for sprites, 457-470 for the stage;
the two loops are identical): each entry of a compiled variable map gets a
freshly generated opaque id; a `list` variable goes into the `lists` table
(second component) with default `[]` unless the stored default is an
array, anything else into the `variables` table (first component) with
default `0` when the stored default is nullish; the display name is
`exportName ?? name`.  The third component is the counter state. -/
def buildVarTables : VarMap → Nat → ManifestTable × ManifestTable × Nat
  | [], n => ([], [], n)
  | p :: rest, n =>
      let su := uid n
      let res := buildVarTables rest su.2
      if p.2.1.type == "list" then
        (res.1, (su.1, (p.2.1.exportName.getD p.2.1.name,
          if p.2.2.isArray then p.2.2 else JsVal.arr [])) :: res.2.1, res.2.2)
      else
        ((su.1, (p.2.1.exportName.getD p.2.1.name,
          p.2.2.nullishOr (JsVal.num 0))) :: res.1, res.2.1, res.2.2)

theorem buildVarTables_counter (v : VarMap) (n : Nat) :
    (buildVarTables v n).2.2 = n + v.length := by
  induction v generalizing n with
  | nil => simp [buildVarTables]
  | cons p rest ih =>
    simp only [buildVarTables]
    by_cases ht : (p.2.1.type == "list") = true
    · rw [if_pos ht]
      simp only [ih, uid, List.length_cons]
      omega
    · rw [if_neg ht]
      simp only [ih, uid, List.length_cons]
      omega

theorem buildVarTables_len (v : VarMap) (n : Nat) :
    (buildVarTables v n).1.length + (buildVarTables v n).2.1.length
      = v.length := by
  induction v generalizing n with
  | nil => simp [buildVarTables]
  | cons p rest ih =>
    simp only [buildVarTables]
    by_cases ht : (p.2.1.type == "list") = true
    · rw [if_pos ht]
      simp only [List.length_cons]
      have := ih (n + 1)
      simp only [uid]
      omega
    · rw [if_neg ht]
      simp only [List.length_cons]
      have := ih (n + 1)
      simp only [uid]
      omega

theorem buildVarTables_ids (v : VarMap) (n : Nat)
    (e : Nat × (String × JsVal))
    (he : e ∈ (buildVarTables v n).1 ∨ e ∈ (buildVarTables v n).2.1) :
    n ≤ e.1 ∧ e.1 < n + v.length := by
  induction v generalizing n with
  | nil => simp [buildVarTables] at he
  | cons p rest ih =>
    simp only [buildVarTables] at he
    by_cases ht : (p.2.1.type == "list") = true
    · rw [if_pos ht] at he
      simp only [List.mem_cons] at he
      rcases he with h1 | h2 | h3
      · have := ih (n + 1) (Or.inl h1)
        simp only [uid] at this
        simp only [List.length_cons]
        omega
      · rw [h2]
        simp only [uid, List.length_cons]
        omega
      · have := ih (n + 1) (Or.inr h3)
        simp only [uid] at this
        simp only [List.length_cons]
        omega
    · rw [if_neg ht] at he
      simp only [List.mem_cons] at he
      rcases he with (h1 | h2) | h3
      · rw [h1]
        simp only [uid, List.length_cons]
        omega
      · have := ih (n + 1) (Or.inl h2)
        simp only [uid] at this
        simp only [List.length_cons]
        omega
      · have := ih (n + 1) (Or.inr h3)
        simp only [uid] at this
        simp only [List.length_cons]
        omega

theorem buildVarTables_names (v : VarMap) (n : Nat)
    (e : Nat × (String × JsVal))
    (he : e ∈ (buildVarTables v n).1 ∨ e ∈ (buildVarTables v n).2.1) :
    ∃ p ∈ v, e.2.1 = p.2.1.exportName.getD p.2.1.name := by
  induction v generalizing n with
  | nil => simp [buildVarTables] at he
  | cons p rest ih =>
    simp only [buildVarTables] at he
    by_cases ht : (p.2.1.type == "list") = true
    · rw [if_pos ht] at he
      simp only [List.mem_cons] at he
      rcases he with h1 | h2 | h3
      · rcases ih (n + 1) (Or.inl h1) with ⟨q, hq, hname⟩
        exact ⟨q, List.mem_cons_of_mem _ hq, hname⟩
      · exact ⟨p, List.mem_cons_self _ _, by rw [h2]⟩
      · rcases ih (n + 1) (Or.inr h3) with ⟨q, hq, hname⟩
        exact ⟨q, List.mem_cons_of_mem _ hq, hname⟩
    · rw [if_neg ht] at he
      simp only [List.mem_cons] at he
      rcases he with (h1 | h2) | h3
      · exact ⟨p, List.mem_cons_self _ _, by rw [h1]⟩
      · rcases ih (n + 1) (Or.inl h2) with ⟨q, hq, hname⟩
        exact ⟨q, List.mem_cons_of_mem _ hq, hname⟩
      · rcases ih (n + 1) (Or.inr h3) with ⟨q, hq, hname⟩
        exact ⟨q, List.mem_cons_of_mem _ hq, hname⟩

/-- C7: at manifest-build time every variable and list entry of a target
is re-keyed from its symbolic name to a freshly generated opaque
identifier, the symbolic name surviving as the display field
(`exportName ?? name`).  Building the tables of two sprites in sequence
(the counter threads through, as consecutive `uid()` calls do) produces
one manifest entry per compiled variable for each sprite, and the opaque
ids of the first sprite's tables are disjoint from the second's — two
sprites declaring an identically named local variable keep two separate
entries that never collapse (`src/bin/compiler.js` lines 457-470 and
547-560). -/
theorem manifestRekeying (v1 v2 : VarMap) (c : Nat) :
    ((buildVarTables v1 c).1.length + (buildVarTables v1 c).2.1.length
      = v1.length)
    ∧ ((buildVarTables v2 (buildVarTables v1 c).2.2).1.length
        + (buildVarTables v2 (buildVarTables v1 c).2.2).2.1.length
      = v2.length)
    ∧ (∀ e, (e ∈ (buildVarTables v1 c).1 ∨ e ∈ (buildVarTables v1 c).2.1) →
        ∃ p ∈ v1, e.2.1 = p.2.1.exportName.getD p.2.1.name)
    ∧ (∀ e, (e ∈ (buildVarTables v2 (buildVarTables v1 c).2.2).1
          ∨ e ∈ (buildVarTables v2 (buildVarTables v1 c).2.2).2.1) →
        ∃ p ∈ v2, e.2.1 = p.2.1.exportName.getD p.2.1.name)
    ∧ (∀ e1, (e1 ∈ (buildVarTables v1 c).1 ∨ e1 ∈ (buildVarTables v1 c).2.1) →
        ∀ e2, (e2 ∈ (buildVarTables v2 (buildVarTables v1 c).2.2).1
            ∨ e2 ∈ (buildVarTables v2 (buildVarTables v1 c).2.2).2.1) →
        e1.1 ≠ e2.1) := by
  refine ⟨buildVarTables_len v1 c, buildVarTables_len v2 _, ?_, ?_, ?_⟩
  · intro e he
    exact buildVarTables_names v1 c e he
  · intro e he
    exact buildVarTables_names v2 _ e he
  · intro e1 he1 e2 he2
    have h1 := buildVarTables_ids v1 c e1 he1
    have h2 := buildVarTables_ids v2 _ e2 he2
    rw [buildVarTables_counter v1 c] at h2
    omega

/-- The variable map of a sprite declaring one local scalar `counter`,
used by the C7 witness. -/
def counterVars : VarMap :=
  [("counter", ((⟨"counter", "scalar", false, none⟩ : Var), JsVal.num 0))]

/-- Witness for C7: two sprites each declaring local `counter` get
distinct opaque ids (0 and 1) for their respective single entries. -/
theorem manifestRekeying_witness :
    ((0 : Nat), (("counter" : String), JsVal.num 0)).1
      ≠ ((1 : Nat), (("counter" : String), JsVal.num 0)).1 :=
  (manifestRekeying counterVars counterVars 0).2.2.2.2
    (0, ("counter", JsVal.num 0)) (by decide)
    (1, ("counter", JsVal.num 0)) (by decide)

/-! ### Decompiler: per-unit failure tolerance (C8) -/

/-- The per-function decompile loop of `decompileStage`/`decompileTarget`
(`src/bin/decompiler.js` lines 319-329 and 463-473; identical in the
legacy `src/unnamed/part_001`): each `decompiler.decompileFunction` call
sits in its own try/catch — a throwing unit is skipped and logged as one
warning, the rest continue.  The external decompiler is the fallible
parameter `df`. -/
def decompileFuncLoop {F A : Type} (df : F → Option A) :
    List F → List A × Nat
  | [] => ([], 0)
  | f :: rest =>
      let res := decompileFuncLoop df rest
      match df f with
      | some a => (a :: res.1, res.2)
      | none => (res.1, res.2 + 1)

/-- The per-script decompile loop (`src/bin/decompiler.js` lines 331-338
and 475-483): a successful unit contributes its list of AST nodes
(`astNodes.push(...scriptAst)`), a throwing one is skipped with one
warning. -/
def decompileScriptLoop {S A : Type} (ds : S → Option (List A)) :
    List S → List A × Nat
  | [] => ([], 0)
  | s :: rest =>
      let res := decompileScriptLoop ds rest
      match ds s with
      | some as => (as ++ res.1, res.2)
      | none => (res.1, res.2 + 1)

/-- The AST-node assembly of one target's decompilation
(`src/bin/decompiler.js` lines 454-483, and 309-338 for the stage):
variable declarations first, then the surviving functions, then the
surviving scripts; the second component totals the warnings for skipped
units. -/
def decompileTargetBody {F S A : Type} (df : F → Option A)
    (ds : S → Option (List A)) (varDecls : List A) (funcs : List F)
    (scripts : List S) : List A × Nat :=
  let fres := decompileFuncLoop df funcs
  let sres := decompileScriptLoop ds scripts
  (varDecls ++ fres.1 ++ sres.1, fres.2 + sres.2)

theorem decompileFuncLoop_mem {F A : Type} (df : F → Option A)
    (funcs : List F) (f : F) (a : A) (hf : f ∈ funcs)
    (ha : df f = some a) : a ∈ (decompileFuncLoop df funcs).1 := by
  induction funcs with
  | nil => simp at hf
  | cons g rest ih =>
    simp only [decompileFuncLoop]
    rcases List.mem_cons.mp hf with h1 | h2
    · subst h1
      rw [ha]
      exact List.mem_cons_self _ _
    · cases hdg : df g with
      | some b => exact List.mem_cons_of_mem _ (ih h2)
      | none => exact ih h2

theorem decompileScriptLoop_mem {S A : Type} (ds : S → Option (List A))
    (scripts : List S) (s : S) (as : List A) (hs : s ∈ scripts)
    (has : ds s = some as) (a : A) (ha : a ∈ as) :
    a ∈ (decompileScriptLoop ds scripts).1 := by
  induction scripts with
  | nil => simp at hs
  | cons t rest ih =>
    simp only [decompileScriptLoop]
    rcases List.mem_cons.mp hs with h1 | h2
    · subst h1
      rw [has]
      exact List.mem_append_left _ ha
    · cases hdt : ds t with
      | some bs => exact List.mem_append_right _ (ih h2)
      | none => exact ih h2

theorem decompileFuncLoop_warnings {F A : Type} (df : F → Option A)
    (funcs : List F) :
    (decompileFuncLoop df funcs).2
      = (funcs.filter (fun f => (df f).isNone)).length := by
  induction funcs with
  | nil => rfl
  | cons g rest ih =>
    simp only [decompileFuncLoop, List.filter_cons]
    cases hdg : df g with
    | some b => simpa [hdg] using ih
    | none => simpa [hdg] using ih

theorem decompileScriptLoop_warnings {S A : Type} (ds : S → Option (List A))
    (scripts : List S) :
    (decompileScriptLoop ds scripts).2
      = (scripts.filter (fun s => (ds s).isNone)).length := by
  induction scripts with
  | nil => rfl
  | cons t rest ih =>
    simp only [decompileScriptLoop, List.filter_cons]
    cases hdt : ds t with
    | some bs => simpa [hdt] using ih
    | none => simpa [hdt] using ih

/-- C8: per-unit failure tolerance of target decompilation.  Every
variable declaration, every function the external decompiler handles and
every node of every script it handles is present in the emitted AST list
even when other units throw; each throwing unit contributes exactly one
warning instead of aborting the target (`src/bin/decompiler.js` lines
319-338 and 463-483). -/
theorem partialDecompile {F S A : Type} (df : F → Option A)
    (ds : S → Option (List A)) (varDecls : List A) (funcs : List F)
    (scripts : List S) :
    (∀ a ∈ varDecls,
        a ∈ (decompileTargetBody df ds varDecls funcs scripts).1)
    ∧ (∀ f ∈ funcs, ∀ a, df f = some a →
        a ∈ (decompileTargetBody df ds varDecls funcs scripts).1)
    ∧ (∀ s ∈ scripts, ∀ as, ds s = some as → ∀ a ∈ as,
        a ∈ (decompileTargetBody df ds varDecls funcs scripts).1)
    ∧ (decompileTargetBody df ds varDecls funcs scripts).2
        = (funcs.filter (fun f => (df f).isNone)).length
          + (scripts.filter (fun s => (ds s).isNone)).length := by
  refine ⟨?_, ?_, ?_, ?_⟩
  · intro a ha
    exact List.mem_append_left _ (List.mem_append_left _ ha)
  · intro f hf a ha
    exact List.mem_append_left _
      (List.mem_append_right _ (decompileFuncLoop_mem df funcs f a hf ha))
  · intro s hs as has a ha
    exact List.mem_append_right _
      (decompileScriptLoop_mem ds scripts s as hs has a ha)
  · simp only [decompileTargetBody, decompileFuncLoop_warnings,
      decompileScriptLoop_warnings]

/-- A fallible decompiler for the C8 witness: unit `1` throws, everything
else succeeds. -/
def c8df : Nat → Option Nat := fun f => if f == 1 then none else some f

/-- A script decompiler for the C8 witness: always succeeds. -/
def c8ds : Nat → Option (List Nat) := fun s => some [s]

/-- Witness for C8: function unit `2` still lands in the emitted AST list
although unit `1` of the same target throws. -/
theorem partialDecompile_witness :
    (2 : Nat) ∈ (decompileTargetBody c8df c8ds [0] [1, 2] [3]).1 :=
  (partialDecompile c8df c8ds [0] [1, 2] [3]).2.1 2 (by decide) 2 (by decide)

/-! ### Decompiler: missing assets (C9) -/

/-- A costume (or sound) record as read from the manifest
(`project.json`): its storage key, display name and optional rotation
center. -/
structure ManifestCostume where
  md5ext : String
  name : String
  rotationCenterX : Option Int
  rotationCenterY : Option Int
  deriving DecidableEq

/-- A regenerated project-configuration asset reference — the
`{name, path, x, y}` object pushed into `projectConfig`. -/
structure AssetRef where
  name : String
  path : String
  x : Int
  y : Int
  deriving DecidableEq

/-- `extractAsset(md5ext, newName)` from `src/bin/decompiler.js` lines
72-82 (identical in `src/unnamed/part_001`): when the archive holds a
blob under `md5ext`, write it into the assets directory (the
written-files trace) and return the key; otherwise return `null` and
write nothing.  `newName` is unused by the source. -/
def extractAsset (z : Zip) (written : List (String × String))
    (md5ext : String) : Option String × List (String × String) :=
  match z.find? (fun p => p.1 == md5ext) with
  | some file => (some md5ext, written ++ [(md5ext, file.2)])
  | none => (none, written)

/-- The sprite costume extraction loop, `src/bin/decompiler.js` lines
210-224 (the stage backdrop loop at 133-147 and the sound loops are
analogous): a costume whose blob extracts is pushed as a config entry
with path `assets/<key>` and `|| 0` rotation centers; a missing blob is
skipped with no entry.  The third component traces warnings — no branch
of the source emits any. -/
def extractCostumeLoop (z : Zip) :
    List ManifestCostume → List (String × String) →
      List AssetRef × List (String × String) × List String
  | [], w => ([], w, [])
  | c :: rest, w =>
      let r1 := extractAsset z w c.md5ext
      let res := extractCostumeLoop z rest r1.2
      match r1.1 with
      | some f =>
          (⟨c.name, "assets/" ++ f, c.rotationCenterX.getD 0,
            c.rotationCenterY.getD 0⟩ :: res.1, res.2.1, res.2.2)
      | none => res

theorem zipHas_eq_isSome (z : Zip) (k : String) :
    zipHas z k = (z.find? (fun p => p.1 == k)).isSome := by
  induction z with
  | nil => rfl
  | cons p rest ih =>
    simp only [zipHas, List.any_cons, List.find?]
    by_cases hp : (p.1 == k) = true
    · rw [hp]
      simp
    · have hp2 : (p.1 == k) = false := by simpa using hp
      rw [hp2]
      simpa [zipHas] using ih

/-- C9: during decompilation, a costume whose storage key has no blob in
the archive makes `extractAsset` return `null` and is silently omitted
from the regenerated configuration — the emitted entries are exactly
those whose key is present, in order, no warning or error is ever
produced, and the loop continues past a missing asset
(`src/bin/decompiler.js` lines 72-82 and 210-224). -/
theorem missingAssetSilentlySkipped (z : Zip)
    (costumes : List ManifestCostume) (w : List (String × String)) :
    ((extractCostumeLoop z costumes w).1
      = costumes.filterMap (fun c =>
          if zipHas z c.md5ext then
            some ⟨c.name, "assets/" ++ c.md5ext, c.rotationCenterX.getD 0,
              c.rotationCenterY.getD 0⟩
          else none))
    ∧ (extractCostumeLoop z costumes w).2.2 = []
    ∧ (∀ k, zipHas z k = false → (extractAsset z w k).1 = none) := by
  refine ⟨?_, ?_, ?_⟩
  · induction costumes generalizing w with
    | nil => rfl
    | cons c rest ih =>
      simp only [extractCostumeLoop, List.filterMap_cons, extractAsset]
      cases hf : z.find? (fun p => p.1 == c.md5ext) with
      | none =>
        have hz : zipHas z c.md5ext = false := by
          rw [zipHas_eq_isSome, hf]
          rfl
        rw [hz]
        simpa using ih w
      | some file =>
        have hz : zipHas z c.md5ext = true := by
          rw [zipHas_eq_isSome, hf]
          rfl
        rw [hz]
        simp only [if_true]
        rw [ih (w ++ [(c.md5ext, file.2)])]
  · induction costumes generalizing w with
    | nil => rfl
    | cons c rest ih =>
      simp only [extractCostumeLoop, extractAsset]
      cases hf : z.find? (fun p => p.1 == c.md5ext) with
      | none => exact ih w
      | some file => exact ih (w ++ [(c.md5ext, file.2)])
  · intro k hk
    unfold extractAsset
    have : z.find? (fun p => p.1 == k) = none := by
      rw [zipHas_eq_isSome] at hk
      exact Option.not_isSome_iff_eq_none.mp (by simp [hk])
    rw [this]

/-- Archive for the C9 witness: holds only `x.svg`. -/
def c9zip : Zip := [("x.svg", "DATA")]

/-- Witness for C9: a key absent from the archive makes `extractAsset`
return `null`. -/
theorem missingAssetSilentlySkipped_witness :
    (extractAsset c9zip [] "missing.svg").1 = none :=
  (missingAssetSilentlySkipped c9zip [] []).2.2 "missing.svg" (by decide)

/-! ### Decompiler: local-variable collection and the conflict policy (C1) -/

/-- A variable or list table of a manifest target as stored in
`project.json`: `Object.entries` order of opaque id → `[name, value]`. -/
abbrev JsonVarTable := List (String × (String × JsVal))

/-- The local-variable collection of the CURRENT decompiler's
`decompileTarget` (`src/bin/decompiler.js` lines 396-425): every scalar
table entry and every list table entry becomes a local declaration
unconditionally — the name-conflict check of the legacy version is
commented out and the function is not even passed the global scope.
Returns `localVars` and `variableDeclarations`. -/
def collectLocalVars (varsTable listsTable : JsonVarTable) :
    List Var × List (Var × JsVal) :=
  let scalars := varsTable.map
    (fun p => ((⟨p.2.1, "scalar", false, none⟩ : Var), p.2.2))
  let listsV := listsTable.map
    (fun p => ((⟨p.2.1, "list", false, none⟩ : Var), p.2.2))
  ((scalars ++ listsV).map (fun q => q.1), scalars ++ listsV)

/-- The scalar loop of the legacy `decompileTarget`
(`src/unnamed/part_001` lines 357-370): a scalar entry whose name is
already in the `localVars` map (seeded with every global) is skipped with
one warning (`continue`); otherwise the name enters the scope and the
declaration is emitted.  Returns the scope names, the emitted
declarations in table order, and the warning count. -/
def legacyScalarLoop (names : List String) :
    JsonVarTable → List String × List (Var × JsVal) × Nat
  | [] => (names, [], 0)
  | p :: rest =>
      if p.2.1 ∈ names then
        let res := legacyScalarLoop names rest
        (res.1, res.2.1, res.2.2 + 1)
      else
        let res := legacyScalarLoop (names ++ [p.2.1]) rest
        (res.1, ((⟨p.2.1, "variable", false, none⟩ : Var), p.2.2) :: res.2.1,
          res.2.2)

/-- The list loop of the legacy `decompileTarget`
(`src/unnamed/part_001` lines 372-381): NO conflict check — every list
entry is declared; `localVars.set` only updates the scope map. -/
def legacyListLoop (names : List String) :
    JsonVarTable → List String × List (Var × JsVal)
  | [] => (names, [])
  | p :: rest =>
      let ns := if p.2.1 ∈ names then names else names ++ [p.2.1]
      let res := legacyListLoop ns rest
      (res.1, ((⟨p.2.1, "list", false, none⟩ : Var), p.2.2) :: res.2)

/-- Step 1 of the legacy `decompileTarget` (`src/unnamed/part_001` lines
352-381): the scope is seeded with the name of every global rebuilt from
the stage tables, then the sprite's scalars (conflict-checked) and lists
(not checked) are collected. -/
def collectLocalVarsLegacy (globalNames : List String)
    (varsTable listsTable : JsonVarTable) :
    List String × List (Var × JsVal) × Nat :=
  let sres := legacyScalarLoop globalNames varsTable
  let lres := legacyListLoop sres.1 listsTable
  (lres.1, sres.2.1 ++ lres.2, sres.2.2)

theorem legacyScalarLoop_decl_names (names : List String)
    (table : JsonVarTable) (d : Var × JsVal)
    (hd : d ∈ (legacyScalarLoop names table).2.1) : d.1.name ∉ names := by
  induction table generalizing names with
  | nil => simp [legacyScalarLoop] at hd
  | cons q rest ih =>
    simp only [legacyScalarLoop] at hd
    by_cases hq : q.2.1 ∈ names
    · rw [if_pos hq] at hd
      exact ih names hd
    · rw [if_neg hq] at hd
      rcases List.mem_cons.mp hd with h1 | h2
      · rw [h1]
        exact hq
      · intro hmem
        exact ih (names ++ [q.2.1]) h2 (List.mem_append_left _ hmem)

theorem legacyScalarLoop_warnings_ge (gnames names : List String)
    (table : JsonVarTable) (hsub : ∀ x ∈ gnames, x ∈ names) :
    (table.filter (fun p => decide (p.2.1 ∈ gnames))).length
      ≤ (legacyScalarLoop names table).2.2 := by
  induction table generalizing names with
  | nil => simp [legacyScalarLoop]
  | cons q rest ih =>
    simp only [legacyScalarLoop, List.filter_cons]
    by_cases hq : q.2.1 ∈ names
    · rw [if_pos hq]
      by_cases hg : q.2.1 ∈ gnames
      · rw [if_pos (by simpa using hg)]
        simp only [List.length_cons]
        exact Nat.succ_le_succ (ih names hsub)
      · rw [if_neg (by simpa using hg)]
        exact Nat.le_succ_of_le (ih names hsub)
    · rw [if_neg hq]
      have hg : q.2.1 ∉ gnames := fun hmem => hq (hsub _ hmem)
      rw [if_neg (by simpa using hg)]
      exact ih (names ++ [q.2.1])
        (fun x hx => List.mem_append_left _ (hsub x hx))

theorem legacyScalarLoop_warnings_le (names : List String)
    (table : JsonVarTable) :
    (legacyScalarLoop names table).2.2 ≤ table.length := by
  induction table generalizing names with
  | nil => simp [legacyScalarLoop]
  | cons q rest ih =>
    simp only [legacyScalarLoop, List.length_cons]
    by_cases hq : q.2.1 ∈ names
    · rw [if_pos hq]
      exact Nat.succ_le_succ (ih names)
    · rw [if_neg hq]
      exact Nat.le_succ_of_le (ih (names ++ [q.2.1]))

theorem legacyScalarLoop_surviving (names : List String)
    (table : JsonVarTable) (p : String × (String × JsVal))
    (hp : p ∈ table) (hname : p.2.1 ∉ names) :
    ∃ d ∈ (legacyScalarLoop names table).2.1, d.1.name = p.2.1 := by
  induction table generalizing names with
  | nil => simp at hp
  | cons q rest ih =>
    simp only [legacyScalarLoop]
    rcases List.mem_cons.mp hp with h1 | h2
    · subst h1
      rw [if_neg hname]
      exact ⟨_, List.mem_cons_self _ _, rfl⟩
    · by_cases hq : q.2.1 ∈ names
      · rw [if_pos hq]
        exact ih names h2 hname
      · rw [if_neg hq]
        by_cases heq : p.2.1 = q.2.1
        · exact ⟨_, List.mem_cons_self _ _, heq.symm⟩
        · have hnotin : p.2.1 ∉ names ++ [q.2.1] := by
            intro hmem
            rcases List.mem_append.mp hmem with h3 | h3
            · exact hname h3
            · exact heq (List.mem_singleton.mp h3)
          rcases ih (names ++ [q.2.1]) h2 hnotin with ⟨d, hd, hdname⟩
          exact ⟨d, List.mem_cons_of_mem _ hd, hdname⟩

theorem legacyListLoop_decls (names : List String) (table : JsonVarTable) :
    (legacyListLoop names table).2
      = table.map (fun p => ((⟨p.2.1, "list", false, none⟩ : Var), p.2.2)) := by
  induction table generalizing names with
  | nil => rfl
  | cons q rest ih =>
    simp only [legacyListLoop, List.map_cons]
    rw [ih]

/-- C1 (amended): the conflict policy of sprite decompilation.  In the
LEGACY decompiler (`src/unnamed/part_001` lines 350-381): a scalar entry
whose name is already in the scope seeded from GlobalScope is skipped —
no emitted scalar declaration carries a name of GlobalScope — each
conflicting entry contributes a warning (the count is at least the number
of conflicting entries and at most the table length), the loop continues
so every scalar entry whose name is NOT in GlobalScope still yields a
declaration under its name, and list entries are never conflict-checked:
all of them are emitted.  In the CURRENT decompiler
(`src/bin/decompiler.js` lines 396-425) there is no check at all: every
scalar and list entry becomes a declaration. -/
theorem decompilerConflictPolicy (globalNames : List String)
    (varsTable listsTable : JsonVarTable) :
    (∀ d ∈ (legacyScalarLoop globalNames varsTable).2.1,
        d.1.name ∉ globalNames)
    ∧ ((varsTable.filter (fun p => decide (p.2.1 ∈ globalNames))).length
        ≤ (legacyScalarLoop globalNames varsTable).2.2)
    ∧ ((legacyScalarLoop globalNames varsTable).2.2 ≤ varsTable.length)
    ∧ (∀ p ∈ varsTable, p.2.1 ∉ globalNames →
        ∃ d ∈ (legacyScalarLoop globalNames varsTable).2.1,
          d.1.name = p.2.1)
    ∧ ((legacyListLoop (legacyScalarLoop globalNames varsTable).1
          listsTable).2
        = listsTable.map
            (fun p => ((⟨p.2.1, "list", false, none⟩ : Var), p.2.2)))
    ∧ ((collectLocalVars varsTable listsTable).2
        = varsTable.map
            (fun p => ((⟨p.2.1, "scalar", false, none⟩ : Var), p.2.2))
          ++ listsTable.map
            (fun p => ((⟨p.2.1, "list", false, none⟩ : Var), p.2.2))) := by
  refine ⟨?_, ?_, ?_, ?_, ?_, rfl⟩
  · intro d hd
    exact legacyScalarLoop_decl_names globalNames varsTable d hd
  · exact legacyScalarLoop_warnings_ge globalNames globalNames varsTable
      (fun x hx => hx)
  · exact legacyScalarLoop_warnings_le globalNames varsTable
  · intro p hp hname
    exact legacyScalarLoop_surviving globalNames varsTable p hp hname
  · exact legacyListLoop_decls _ listsTable

/-- C1 counterexample: the claim — every scalar OR LIST local entry whose
name is already in GlobalScope is skipped with a warning — fails on the
code.  With GlobalScope holding `score`: the CURRENT decompiler emits a
conflicting local scalar `score` as a declaration (it performs no check
and emits no warning), and even the LEGACY decompiler emits a conflicting
local LIST `score` with zero warnings. -/
theorem decompilerConflictPolicy_counterexample :
    ((collectLocalVars [("idA", ("score", JsVal.num 0))] []).2
      = [((⟨"score", "scalar", false, none⟩ : Var), JsVal.num 0)])
    ∧ (collectLocalVarsLegacy ["score"] []
          [("idB", ("score", JsVal.arr []))]
        = (["score"],
            [((⟨"score", "list", false, none⟩ : Var), JsVal.arr [])], 0)) := by
  constructor <;> decide

/-- Witness for C1 (amended): with GlobalScope `{score}`, the legacy
scalar loop drops the conflicting `score` but still emits the
non-conflicting `hp`. -/
theorem decompilerConflictPolicy_witness :
    ∃ d ∈ (legacyScalarLoop ["score"]
        [("i1", ("score", JsVal.num 0)), ("i2", ("hp", JsVal.num 5))]).2.1,
      d.1.name = "hp" :=
  (decompilerConflictPolicy ["score"]
      [("i1", ("score", JsVal.num 0)), ("i2", ("hp", JsVal.num 5))]
      []).2.2.2.1 ("i2", ("hp", JsVal.num 5)) (by decide) (by decide)

end Fuse
